import Mathlib

/-!
# Verification of the govassist media pipeline

A shallow embedding of the repository's two Python scripts (`main.py`,
`scrape.py`) together with the spec-described text chunker, and proofs of
the frozen claims about them.

Strings are modelled as `List Char`.  Python's `re` character classes
`\w`, `\d`, `\s` have Unicode semantics on `str`; the embedding models
them on the ASCII range (where `\w = [A-Za-z0-9_]`, `\d = [0-9]`,
`\s = [ \t\n\r\x0b\x0c]`), which is the range every concrete input below
lies in.
-/

/-! ## Character classes (ASCII fragment of Python's regex classes) -/

/-- ASCII fragment of Python's `\s` class (`str.isspace` on ASCII). -/
def isSpaceCh (c : Char) : Bool :=
  c = ' ' || c = '\t' || c = '\n' || c = '\r' || c = '\x0b' || c = '\x0c'

/-- ASCII fragment of Python's `\d` class. -/
def isDigitCh (c : Char) : Bool := c.isDigit

/-- The regex class `[A-Za-z]` (exactly ASCII letters). -/
def isAlphaCh (c : Char) : Bool := c.isAlpha

/-- ASCII fragment of Python's `\w` class: `[A-Za-z0-9_]`. -/
def isWordChar (c : Char) : Bool := c.isAlphanum || c = '_'

/-- The filename-safety class `[A-Za-z0-9_.-]` from the spec. -/
def safeChar (c : Char) : Bool := c.isAlphanum || c = '_' || c = '-' || c = '.'

/-! ## Small Python string helpers -/

/-- Python `str.replace(a, '')` for a single-character pattern `a`. -/
def pyDrop (a : Char) (l : List Char) : List Char := l.filter (fun c => c ≠ a)

/-- Python `str.replace(a, b)` for single characters `a`, `b`. -/
def pySwap (a b : Char) (l : List Char) : List Char :=
  l.map (fun c => if c = a then b else c)

/-- Python `str.strip()` (whitespace stripped from both ends). -/
def pyStrip (l : List Char) : List Char :=
  ((l.dropWhile isSpaceCh).reverse.dropWhile isSpaceCh).reverse

/-- Python `needle in haystack` (substring containment). -/
def hasSub (needle : List Char) : List Char → Bool
  | [] => needle.isEmpty
  | c :: rest => needle.isPrefixOf (c :: rest) || hasSub needle rest

/-- Python `haystack.split(needle, 1)[1]`: everything after the first
occurrence of `needle` (meaningful when `hasSub needle haystack`). -/
def afterFirst (needle : List Char) : List Char → List Char
  | [] => []
  | c :: rest =>
    if needle.isPrefixOf (c :: rest) then (c :: rest).drop needle.length
    else afterFirst needle rest

/-! ## `sanitize_filename` — the copy in `main.py` (lines 104–121) -/

namespace MainPy

/-- `main.py` `sanitize_filename`: the chain of `str.replace` calls,
then `re.sub(r'[^\w\-.]', '', ·)`, then truncation to `max_length`.
(`\w` modelled on ASCII.) -/
def sanitize_filename (text : List Char) (max_length : Nat := 100) : List Char :=
  let s1 := pyDrop ':' text
  let s2 := pyDrop ',' s1
  let s3 := pySwap '/' '-' s2
  let s4 := pySwap '\\' '-' s3
  let s5 := pyDrop '?' s4
  let s6 := pyDrop '*' s5
  let s7 := pyDrop '"' s6
  let s8 := pyDrop '<' s7
  let s9 := pyDrop '>' s8
  let s10 := pySwap '|' '-' s9
  let s11 := pySwap ' ' '_' s10
  let s12 := s11.filter (fun c => isWordChar c || c = '-' || c = '.')
  s12.take max_length

end MainPy

/-! ## `sanitize_filename` — the copy in `scrape.py` (lines 142–159) -/

namespace ScrapePy

/-- `scrape.py` `sanitize_filename`: textually the same chain of
replacements as the `main.py` copy. -/
def sanitize_filename (text : List Char) (max_length : Nat := 100) : List Char :=
  let s1 := pyDrop ':' text
  let s2 := pyDrop ',' s1
  let s3 := pySwap '/' '-' s2
  let s4 := pySwap '\\' '-' s3
  let s5 := pyDrop '?' s4
  let s6 := pyDrop '*' s5
  let s7 := pyDrop '"' s6
  let s8 := pyDrop '<' s7
  let s9 := pyDrop '>' s8
  let s10 := pySwap '|' '-' s9
  let s11 := pySwap ' ' '_' s10
  let s12 := s11.filter (fun c => isWordChar c || c = '-' || c = '.')
  s12.take max_length

end ScrapePy

/-! ## `convert_to_iso8601_datetime` (`main.py` lines 61–102)

The function matches its input against the regex
`([A-Za-z]+)\s+(\d{1,2}),?\s+(\d{4})\s+(.*?)\s+at\s+(\d{1,2}):(\d{2})\s+(AM|PM)`
with `re.match`.  The regex is embedded as a backtracking matcher: each
piece maps a remaining input to the list of `(capture, rest)` pairs in
the priority order the regex engine explores them (greedy pieces longest
first, the lazy `(.*?)` shortest first), pieces are composed with
`List.bind`, and the overall match is the head of the result list. -/

/-- Greedy `p+`: all nonempty splits into a leading run of `p`-characters
and a remainder, longest first. -/
def plusSplits (p : Char → Bool) (s : List Char) : List (List Char × List Char) :=
  let m := (s.takeWhile p).length
  (List.range m).map (fun i => (s.take (m - i), s.drop (m - i)))

/-- Greedy `\d{1,2}`: two digits first, then one digit. -/
def digitsOneTwo (s : List Char) : List (List Char × List Char) :=
  (match s with
   | a :: b :: rest =>
     if isDigitCh a && isDigitCh b then [([a, b], rest)] else []
   | _ => []) ++
  (match s with
   | a :: rest => if isDigitCh a then [([a], rest)] else []
   | _ => [])

/-- `\d{n}` (exactly `n` digits). -/
def digitsExact (n : Nat) (s : List Char) : List (List Char × List Char) :=
  if n ≤ s.length && (s.take n).all isDigitCh then [(s.take n, s.drop n)] else []

/-- Greedy `,?`: with the comma first, then without. -/
def optComma (s : List Char) : List (List Char) :=
  (match s with
   | ',' :: rest => [rest]
   | _ => []) ++ [s]

/-- A literal piece of the pattern. -/
def lit (w : List Char) (s : List Char) : List (List Char) :=
  if w.isPrefixOf s then [s.drop w.length] else []

/-- Lazy `(.*?)` (no newline): all splits, shortest first. -/
def lazySplits (s : List Char) : List (List Char × List Char) :=
  (List.range (s.length + 1)).filterMap (fun k =>
    if (s.take k).all (fun c => c ≠ '\n') then some (s.take k, s.drop k) else none)

/-- The alternation `(AM|PM)`. -/
def ampmAlts (s : List Char) : List (List Char × List Char) :=
  ((lit ['A', 'M'] s).map (fun r => (['A', 'M'], r))) ++
  ((lit ['P', 'M'] s).map (fun r => (['P', 'M'], r)))

/-- The seven capture groups of the meeting-info pattern. -/
structure Meeting where
  month : List Char
  day : List Char
  year : List Char
  desc : List Char
  hour : List Char
  minute : List Char
  ampm : List Char
deriving DecidableEq

/-- `re.match` of the meeting-info pattern: the first result of the
backtracking search (`re.match` anchors at the start only; trailing
input is allowed). -/
def matchMeeting (s : List Char) : Option Meeting :=
  ((plusSplits isAlphaCh s).flatMap fun ms =>
   (plusSplits isSpaceCh ms.2).flatMap fun w1 =>
   (digitsOneTwo w1.2).flatMap fun ds =>
   (optComma ds.2).flatMap fun s3 =>
   (plusSplits isSpaceCh s3).flatMap fun w2 =>
   (digitsExact 4 w2.2).flatMap fun ys =>
   (plusSplits isSpaceCh ys.2).flatMap fun w3 =>
   (lazySplits w3.2).flatMap fun cs =>
   (plusSplits isSpaceCh cs.2).flatMap fun w4 =>
   (lit ['a', 't'] w4.2).flatMap fun s9 =>
   (plusSplits isSpaceCh s9).flatMap fun w5 =>
   (digitsOneTwo w5.2).flatMap fun hs =>
   (lit [':'] hs.2).flatMap fun s12 =>
   (digitsExact 2 s12).flatMap fun mins =>
   (plusSplits isSpaceCh mins.2).flatMap fun w6 =>
   (ampmAlts w6.2).map fun ap =>
     Meeting.mk ms.1 ds.1 ys.1 cs.1 hs.1 mins.1 ap.1).head?

/-- Full English month names, lowercased (`strptime` with `%B` is
case-insensitive). -/
def fullMonths : List (List Char) :=
  [String.toList "january", String.toList "february", String.toList "march",
   String.toList "april", String.toList "may", String.toList "june",
   String.toList "july", String.toList "august", String.toList "september",
   String.toList "october", String.toList "november", String.toList "december"]

/-- Abbreviated month names, lowercased (`strptime` with `%b`). -/
def abbrevMonths : List (List Char) :=
  [String.toList "jan", String.toList "feb", String.toList "mar",
   String.toList "apr", String.toList "may", String.toList "jun",
   String.toList "jul", String.toList "aug", String.toList "sep",
   String.toList "oct", String.toList "nov", String.toList "dec"]

/-- The `strptime('%B')`-then-`strptime('%b')` month lookup of
`convert_to_iso8601_datetime`; `none` when both raise `ValueError`. -/
def monthNum (m : List Char) : Option Nat :=
  let lm := m.map Char.toLower
  match fullMonths.findIdx? (fun x => x = lm) with
  | some i => some (i + 1)
  | none =>
    match abbrevMonths.findIdx? (fun x => x = lm) with
    | some i => some (i + 1)
    | none => none

/-- Numeric value of a list of decimal digits (Python `int`). -/
def natOfDigits (l : List Char) : Nat :=
  l.foldl (fun a c => a * 10 + (c.toNat - 48)) 0

/-- Python's `%02d` format: decimal digits, zero-padded to width 2. -/
def pad2 (n : Nat) : List Char :=
  let d := Nat.toDigits 10 n
  if d.length < 2 then '0' :: d else d

/-- `main.py` `convert_to_iso8601_datetime`: on a regex match with a
recognized month name, emit `YYYY-MM-DDTHHMM_<desc.strip()>`; otherwise
return the input unchanged.  The 12→24-hour rule is exactly the source's:
add 12 on `PM` unless the hour is 12, zero the hour on `AM` at 12. -/
def convert_to_iso8601_datetime (meeting_info : List Char) : List Char :=
  match matchMeeting meeting_info with
  | none => meeting_info
  | some m =>
    match monthNum m.month with
    | none => meeting_info
    | some mn =>
      let hour_int := natOfDigits m.hour
      let h :=
        if m.ampm = ['P', 'M'] ∧ hour_int ≠ 12 then hour_int + 12
        else if m.ampm = ['A', 'M'] ∧ hour_int = 12 then 0
        else hour_int
      let iso_date := m.year ++ '-' :: pad2 mn ++ '-' :: pad2 (natOfDigits m.day)
      let iso_time := pad2 h ++ m.minute
      iso_date ++ 'T' :: iso_time ++ '_' :: pyStrip m.desc

/-! ## Base-filename derivation (`main.py` lines 206–228)

For a link whose `img` tag carries an `alt` attribute, `process_page`
derives `base_filename` from the alt text: if the substring `'for '`
occurs, the part after its first occurrence goes through
`convert_to_iso8601_datetime` then `sanitize_filename`; otherwise only
the three basic replacements of line 224 are applied. -/

namespace MainPy

/-- The needle of the `if 'for ' in alt_text` test. -/
def forNeedle : List Char := String.toList "for "

/-- `main.py` lines 211–225: `base_filename` derived from an alt text. -/
def derive_base_filename (alt_text : List Char) : List Char :=
  if hasSub forNeedle alt_text then
    sanitize_filename (convert_to_iso8601_datetime (afterFirst forNeedle alt_text))
  else
    pyDrop ',' (pyDrop ':' (pySwap ' ' '_' alt_text))

end MainPy

/-! ## The per-record pipeline (`main.py` lines 123–257)

The orchestration is modelled over an existence-level filesystem: the
set of paths that exist, as a `List String`.  Each collaborator
(network download, moviepy extraction, whisper transcription) either
succeeds or reports a failure; every reported failure is caught by the
`try`/`except` block of its stage function in the source
(`download_file` catches `requests.exceptions.RequestException`,
`extract_audio_func` and `transcribe_audio` catch `Exception`), so each
stage is a total function on the filesystem.  Which collaborator
succeeds is an oracle (`Stages`) the theorems quantify over. -/

namespace Pipeline

/-- Existence-level filesystem: the list of paths that exist. -/
abbrev FS := List String

/-- Outcome of the streaming download of `download_file`:
success, a failure before the output file is opened (`requests.get` or
`raise_for_status` raises), or a failure mid-copy (the partial file
remains).  All three raise at most `RequestException`, which the stage
catches. -/
inductive DlOutcome
  | ok
  | failEarly
  | failMid
deriving DecidableEq

/-- Collaborator oracle for one record's processing. -/
structure Stages where
  dl : DlOutcome
  extractOk : Bool
  hasAudio : Bool
  transcribeOk : Bool

/-- Stage invocations, recorded so the theorems can talk about which
side effects a record's processing performs. -/
inductive Event
  | download
  | extract
  | transcribe
  | removeVideo
deriving DecidableEq

/-- The fixed stage directories of `main.py` lines 54–56. -/
def download_folder : String := "mp4_downloads"

def audio_folder : String := "audio_extracts"

def transcription_folder : String := "transcriptions"

/-- `os.path.join(download_folder, f"{base_filename}.mp4")`. -/
def video_filename (base : String) : String :=
  download_folder ++ "/" ++ base ++ ".mp4"

/-- `os.path.join(audio_folder, f"{base_filename}.mp3")`. -/
def audio_file_path (base : String) : String :=
  audio_folder ++ "/" ++ base ++ ".mp3"

/-- `os.path.join(transcription_folder, f"{base_filename}.txt")`. -/
def transcription_file_path (base : String) : String :=
  transcription_folder ++ "/" ++ base ++ ".txt"

/-- `main.py` `download_file` at existence level: on success or a
mid-stream failure the (possibly partial) file is on disk; on an early
request failure nothing was opened.  The exception is caught either
way. -/
def download_file (dl : DlOutcome) (fs : FS) (filename : String) : FS :=
  match dl with
  | .ok => filename :: fs
  | .failEarly => fs
  | .failMid => filename :: fs

/-- `main.py` `extract_audio_func`: skip if the audio file exists;
otherwise write it only when moviepy succeeds and the video has an
audio track (errors caught, no-audio logs a warning and writes
nothing). -/
def extract_audio_func (st : Stages) (fs : FS) (audio_file : String) : FS :=
  if audio_file ∈ fs then fs
  else if st.extractOk && st.hasAudio then audio_file :: fs
  else fs

/-- `main.py` `transcribe_audio`: return if the audio file is missing or
the transcription already exists; otherwise write the transcription when
whisper succeeds (errors caught). -/
def transcribe_audio (st : Stages) (fs : FS) (audio_file transcription_file : String) : FS :=
  if audio_file ∉ fs then fs
  else if transcription_file ∈ fs then fs
  else if st.transcribeOk then transcription_file :: fs
  else fs

/-- The loop body of `main.py` `process_page` (lines 230–257) for one
record: the transcript-exists skip, the conditional download, the
conditional extraction, the transcription call, and the video cleanup.
Returns the new filesystem and the list of stage invocations. -/
def process_record (st : Stages) (fs : FS) (base : String) : FS × List Event :=
  if transcription_file_path base ∈ fs then (fs, [])
  else
    let dl := audio_file_path base ∉ fs ∧ video_filename base ∉ fs
    let fs1 := if dl then download_file st.dl fs (video_filename base) else fs
    let ex := video_filename base ∈ fs1
    let fs2 := if ex then extract_audio_func st fs1 (audio_file_path base) else fs1
    let fs3 := transcribe_audio st fs2 (audio_file_path base) (transcription_file_path base)
    let rm := video_filename base ∈ fs3
    let fs4 := if rm then fs3.filter (fun p => p ≠ video_filename base) else fs3
    (fs4,
      (if dl then [Event.download] else []) ++
      (if ex then [Event.extract] else []) ++
      [Event.transcribe] ++
      (if rm then [Event.removeVideo] else []))

/-- The record loop of `process_page`: each discovered record (its
derived base name, with its collaborator oracle) is processed in order,
threading the filesystem; one trace of stage invocations is produced
per record. -/
def process_page (fs : FS) : List (String × Stages) → FS × List (List Event)
  | [] => (fs, [])
  | (b, st) :: rest =>
    let r := process_record st fs b
    let rs := process_page r.1 rest
    (rs.1, r.2 :: rs.2)

end Pipeline

/-! ## `download_file` at content level (`main.py` lines 123–134)

For the atomicity claim the download stage is modelled with file
contents: the filesystem maps paths to the list of stream chunks
written.  `download_file` opens the destination with `open(filename,
'wb')` (creating/truncating it) only after `requests.get` and
`raise_for_status` succeed, then copies the stream chunk by chunk with
`shutil.copyfileobj`; a `RequestException` at any point is caught and
only logged — nothing deletes a partially written file. -/

namespace Streaming

/-- Content-level filesystem: paths mapped to their contents. -/
abbrev CFS := List (String × List Nat)

/-- `open(p, 'wb')` followed by writing `content`. -/
def setFile (fs : CFS) (p : String) (content : List Nat) : CFS :=
  (p, content) :: fs.filter (fun e => e.1 ≠ p)

/-- `main.py` `download_file` over a stream of chunks.  `failAt = none`:
the whole stream is copied.  `failAt = some 0`: the request or the
status check raises before the output file is opened.  `failAt = some
(k+1)`: the stream raises after `k` chunks were copied, leaving the
partial file.  The exception is caught and logged in every case. -/
def download_file (stream : List Nat) (failAt : Option Nat) (fs : CFS)
    (filename : String) : CFS :=
  match failAt with
  | none => setFile fs filename stream
  | some 0 => fs
  | some (k + 1) => setFile fs filename (stream.take k)

end Streaming

/-! ## The pipeline with uncaught OS faults (`main.py` lines 123–257)

The `Pipeline` model above covers the collaborator-reported failures,
each of which the source catches.  Two error points of the loop body
are *not* caught by any `try`/`except` in the source and therefore
propagate out of the record's processing and (since neither the record
loop nor `main` has a handler) end the whole run:

* an `OSError` raised by `open(filename, 'wb')` or by the copy inside
  `download_file` (lines 130–131) — its `except` clause (line 133)
  catches only `requests.exceptions.RequestException`;
* an `OSError` raised by `os.remove(video_filename)` in the cleanup
  step (line 255), which no `try` encloses.

The extraction and transcription stages catch all `Exception`s
(`OSError` included), so they have no uncaught fault point.  This
refined model adds the two fault points to the oracle and makes record
processing `Except`-valued: `Except.error` is an uncaught exception,
carrying the filesystem and trace at the raise. -/

namespace PipelineErr

/-- Collaborator oracle extended with the two uncaught OS-fault
points: `dlOpenErr` (an `OSError` from `open`/`copyfileobj` inside the
download stage) and `removeErr` (an `OSError` from `os.remove` in the
cleanup step). -/
structure StagesE where
  dl : Pipeline.DlOutcome
  dlOpenErr : Bool
  extractOk : Bool
  hasAudio : Bool
  transcribeOk : Bool
  removeErr : Bool

/-- The collaborator-failure part of the oracle. -/
def StagesE.toStages (st : StagesE) : Pipeline.Stages :=
  ⟨st.dl, st.extractOk, st.hasAudio, st.transcribeOk⟩

/-- `main.py` `download_file` with the uncaught fault point: an early
request failure raises before `open`, is caught, and leaves no file;
once `open` has created the destination, an `OSError` escapes the
`except requests.exceptions.RequestException` clause with the
(possibly partial) file in place, while any `RequestException` is
caught. -/
def download_file (dl : Pipeline.DlOutcome) (openErr : Bool) (fs : Pipeline.FS)
    (filename : String) : Except Pipeline.FS Pipeline.FS :=
  match dl with
  | .failEarly => .ok fs
  | _ => if openErr then .error (filename :: fs) else .ok (filename :: fs)

/-- The cleanup step (`main.py` lines 253–255): remove the video file
if it exists; `os.remove` may raise an uncaught `OSError`, in which
case the file stays on disk. -/
def cleanup_step (st : StagesE) (fs3 : Pipeline.FS) (base : String)
    (trace : List Pipeline.Event) :
    Except (Pipeline.FS × List Pipeline.Event) (Pipeline.FS × List Pipeline.Event) :=
  if Pipeline.video_filename base ∈ fs3 then
    if st.removeErr then .error (fs3, trace)
    else .ok (fs3.filter (fun p => p ≠ Pipeline.video_filename base), trace)
  else .ok (fs3, trace)

/-- The loop body of `process_page` for one record, with uncaught
`OSError`s propagating as `Except.error`. -/
def process_record (st : StagesE) (fs : Pipeline.FS) (base : String) :
    Except (Pipeline.FS × List Pipeline.Event) (Pipeline.FS × List Pipeline.Event) :=
  if Pipeline.transcription_file_path base ∈ fs then .ok (fs, [])
  else
    match (if Pipeline.audio_file_path base ∉ fs ∧ Pipeline.video_filename base ∉ fs
           then download_file st.dl st.dlOpenErr fs (Pipeline.video_filename base)
           else .ok fs) with
    | .error fs1 => .error (fs1, [Pipeline.Event.download])
    | .ok fs1 =>
      let ex := Pipeline.video_filename base ∈ fs1
      let fs2 := if ex then Pipeline.extract_audio_func st.toStages fs1
          (Pipeline.audio_file_path base)
        else fs1
      let fs3 := Pipeline.transcribe_audio st.toStages fs2 (Pipeline.audio_file_path base)
        (Pipeline.transcription_file_path base)
      let rm := Pipeline.video_filename base ∈ fs3
      let trace := (if Pipeline.audio_file_path base ∉ fs ∧ Pipeline.video_filename base ∉ fs
          then [Pipeline.Event.download] else []) ++
        (if ex then [Pipeline.Event.extract] else []) ++
        [Pipeline.Event.transcribe] ++
        (if rm then [Pipeline.Event.removeVideo] else [])
      cleanup_step st fs3 base trace

/-- The record loop with propagation: neither the loop body of
`process_page` nor `main` wraps record processing in a `try`, so an
uncaught exception in one record ends the run — later records are
never reached, and the error result carries only the traces produced
up to the raise. -/
def process_page (fs : Pipeline.FS) :
    List (String × StagesE) →
      Except (Pipeline.FS × List (List Pipeline.Event))
        (Pipeline.FS × List (List Pipeline.Event))
  | [] => .ok (fs, [])
  | (b, st) :: rest =>
    match process_record st fs b with
    | .error e => .error (e.1, [e.2])
    | .ok r =>
      match process_page r.1 rest with
      | .error e2 => .error (e2.1, r.2 :: e2.2)
      | .ok r2 => .ok (r2.1, r.2 :: r2.2)

end PipelineErr

/-- Accumulator-based whitespace splitting (Python `str.split()` with no
arguments): runs of whitespace separate words, empty tokens never
appear. -/
def splitWordsAux : List Char → List Char → List (List Char)
  | [], acc => if acc = [] then [] else [acc.reverse]
  | c :: rest, acc =>
    if isSpaceCh c then
      if acc = [] then splitWordsAux rest []
      else acc.reverse :: splitWordsAux rest []
    else splitWordsAux rest (c :: acc)

/-- Modelled from the spec: "split `text` on whitespace into a sequence
of words (order preserved, empty tokens discarded)". -/
def splitWords (l : List Char) : List (List Char) := splitWordsAux l []

/-- Modelled from the spec: "re-join each group's words with single
spaces" (Python `' '.join`). -/
def joinWords : List (List Char) → List Char
  | [] => []
  | [w] => w
  | w :: ws => w ++ ' ' :: joinWords ws

/-- Fuel-based partition of a list into consecutive groups of up to `n`
elements (the fuel is an upper bound on the list length, so the
recursion is structural). -/
def chunksOf (n : Nat) : Nat → List α → List (List α)
  | _, [] => []
  | 0, _ :: _ => []
  | fuel + 1, x :: xs => (x :: xs).take n :: chunksOf n fuel ((x :: xs).drop n)

/-- The configured chunk size (spec §4.2). -/
def chunk_size : Nat := 500

/-- Modelled from the spec: the Text Chunker — words of the text grouped
into consecutive runs of up to `chunk_size` words, each group re-joined
with single spaces. -/
def chunk_transcript (text : List Char) : List (List Char) :=
  let ws := splitWords text
  (chunksOf chunk_size ws.length ws).map joinWords

/-- A 500-word text used to instantiate the chunking theorem. -/
def chunkDemo : List Char := joinWords (List.replicate 500 ['a'])

/-! ## Lemmas about the chunker -/

lemma splitWordsAux_append (w : List Char) (l acc : List Char)
    (h : ∀ c ∈ w, isSpaceCh c = false) :
    splitWordsAux (w ++ l) acc = splitWordsAux l (w.reverse ++ acc) := by
  induction w generalizing acc with
  | nil => simp
  | cons c w ih =>
    have hc : isSpaceCh c = false := h c (List.mem_cons_self c w)
    show splitWordsAux (c :: (w ++ l)) acc = _
    rw [splitWordsAux, if_neg (by simp [hc])]
    rw [ih _ (fun x hx => h x (List.mem_cons_of_mem c hx))]
    simp

lemma splitWords_joinWords (ws : List (List Char))
    (h : ∀ w ∈ ws, w ≠ [] ∧ ∀ c ∈ w, isSpaceCh c = false) :
    splitWords (joinWords ws) = ws := by
  induction ws with
  | nil => rfl
  | cons w ws ih =>
    obtain ⟨hw, hwc⟩ := h w (List.mem_cons_self w ws)
    cases ws with
    | nil =>
      show splitWordsAux (joinWords [w]) [] = [w]
      have ha := splitWordsAux_append w [] [] hwc
      simp only [List.append_nil] at ha
      rw [joinWords, ha, splitWordsAux]
      simp [hw]
    | cons w2 ws2 =>
      show splitWordsAux (joinWords (w :: w2 :: ws2)) [] = w :: w2 :: ws2
      have hj : joinWords (w :: w2 :: ws2) = w ++ ' ' :: joinWords (w2 :: ws2) := rfl
      have ha := splitWordsAux_append w (' ' :: joinWords (w2 :: ws2)) [] hwc
      simp only [List.append_nil] at ha
      rw [hj, ha, splitWordsAux]
      have hsp : isSpaceCh ' ' = true := rfl
      rw [if_pos hsp, if_neg (by simp [hw])]
      rw [List.reverse_reverse]
      exact congrArg (w :: ·) (ih (fun x hx => h x (List.mem_cons_of_mem w hx)))

lemma splitWordsAux_sound (l : List Char) : ∀ (acc : List Char),
    (∀ c ∈ acc, isSpaceCh c = false) →
    ∀ w ∈ splitWordsAux l acc, w ≠ [] ∧ ∀ c ∈ w, isSpaceCh c = false := by
  induction l with
  | nil =>
    intro acc hacc w hw
    by_cases h : acc = []
    · simp [splitWordsAux, h] at hw
    · simp only [splitWordsAux, if_neg h, List.mem_singleton] at hw
      subst hw
      refine ⟨by simpa using h, fun c hc => hacc c (List.mem_reverse.mp hc)⟩
  | cons c rest ih =>
    intro acc hacc w hw
    by_cases hs : isSpaceCh c = true
    · by_cases h : acc = []
      · rw [splitWordsAux, if_pos hs, if_pos h] at hw
        exact ih [] (by simp) w hw
      · rw [splitWordsAux, if_pos hs, if_neg h] at hw
        rcases List.mem_cons.mp hw with hw | hw
        · subst hw
          exact ⟨by simpa using h, fun x hx => hacc x (List.mem_reverse.mp hx)⟩
        · exact ih [] (by simp) w hw
    · have hs' : isSpaceCh c = false := by simpa using hs
      rw [splitWordsAux, if_neg (by simp [hs'])] at hw
      refine ih (c :: acc) ?_ w hw
      intro x hx
      rcases List.mem_cons.mp hx with hx | hx
      · simpa [hx] using hs'
      · exact hacc x hx

lemma splitWords_sound (l : List Char) :
    ∀ w ∈ splitWords l, w ≠ [] ∧ ∀ c ∈ w, isSpaceCh c = false :=
  splitWordsAux_sound l [] (by simp)

lemma chunksOf_join {α : Type} (n : Nat) (hn : 0 < n) :
    ∀ (fuel : Nat) (l : List α), l.length ≤ fuel →
      (chunksOf n fuel l).flatten = l := by
  intro fuel
  induction fuel with
  | zero =>
    intro l hl
    cases l with
    | nil => rfl
    | cons x xs => simp at hl
  | succ f ih =>
    intro l hl
    cases l with
    | nil => rfl
    | cons x xs =>
      have hd : ((x :: xs).drop n).length = (x :: xs).length - n :=
        List.length_drop n (x :: xs)
      rw [chunksOf, List.flatten_cons, ih _ (by simp at hl; simp [hd]; omega)]
      exact List.take_append_drop n (x :: xs)

lemma chunksOf_length {α : Type} (n : Nat) (hn : 0 < n) :
    ∀ (fuel k : Nat) (l : List α), l.length ≤ fuel → l.length = n * k →
      (chunksOf n fuel l).length = k := by
  intro fuel
  induction fuel with
  | zero =>
    intro k l hf hk
    cases l with
    | nil =>
      simp only [List.length_nil] at hk
      rcases Nat.mul_eq_zero.mp hk.symm with h | h
      · omega
      · simp [chunksOf, h]
    | cons x xs => simp at hf
  | succ f ih =>
    intro k l hf hk
    cases l with
    | nil =>
      simp only [List.length_nil] at hk
      rcases Nat.mul_eq_zero.mp hk.symm with h | h
      · omega
      · simp [chunksOf, h]
    | cons x xs =>
      cases k with
      | zero =>
        simp only [Nat.mul_zero] at hk
        simp at hk
      | succ k =>
        rw [chunksOf, List.length_cons]
        rw [ih k ((x :: xs).drop n) ?hf ?hk]
        case hf =>
          have h1 : (x :: xs).length ≤ f + 1 := hf
          have h2 : ((x :: xs).drop n).length = (x :: xs).length - n :=
            List.length_drop n (x :: xs)
          omega
        case hk =>
          have h2 : ((x :: xs).drop n).length = (x :: xs).length - n :=
            List.length_drop n (x :: xs)
          have h3 : (x :: xs).length = n * k + n := by
            rw [hk, Nat.mul_succ]
          omega

lemma chunksOf_mem_length {α : Type} (n : Nat) (hn : 0 < n) :
    ∀ (fuel k : Nat) (l : List α), l.length ≤ fuel → l.length = n * k →
      ∀ c ∈ chunksOf n fuel l, c.length = n := by
  intro fuel
  induction fuel with
  | zero =>
    intro k l hf hk c hc
    cases l with
    | nil => simp [chunksOf] at hc
    | cons x xs => simp at hf
  | succ f ih =>
    intro k l hf hk c hc
    cases l with
    | nil => simp [chunksOf] at hc
    | cons x xs =>
      rw [chunksOf] at hc
      cases k with
      | zero => simp [Nat.mul_zero] at hk
      | succ k =>
        have h3 : (x :: xs).length = n * k + n := by
          rw [hk, Nat.mul_succ]
        rcases List.mem_cons.mp hc with hc | hc
        · subst hc
          simp only [List.length_take]
          omega
        · refine ih k ((x :: xs).drop n) ?_ ?_ c hc <;>
            have h2 : ((x :: xs).drop n).length = (x :: xs).length - n :=
              List.length_drop n (x :: xs)
          · omega
          · omega

lemma chunksOf_subset {α : Type} (n : Nat) :
    ∀ (fuel : Nat) (l : List α) (c : List α), c ∈ chunksOf n fuel l →
      ∀ x ∈ c, x ∈ l := by
  intro fuel
  induction fuel with
  | zero =>
    intro l c hc
    cases l with
    | nil => simp [chunksOf] at hc
    | cons x xs => simp [chunksOf] at hc
  | succ f ih =>
    intro l c hc x hx
    cases l with
    | nil => simp [chunksOf] at hc
    | cons y ys =>
      rw [chunksOf] at hc
      rcases List.mem_cons.mp hc with hc | hc
      · exact List.take_subset n (y :: ys) (hc ▸ hx)
      · exact List.drop_subset n (y :: ys) (ih _ c hc x hx)


/-! ## Lemmas about the pipeline -/

lemma mem_ite_singleton_iff {α : Type} {p : Prop} [Decidable p] {a x : α} :
    (a ∈ (if p then [x] else [])) ↔ p ∧ a = x := by
  split <;> simp_all

lemma not_mem_removeIf (l : List String) (v : String) :
    v ∉ (if v ∈ l then l.filter (fun p => p ≠ v) else l) := by
  by_cases h : v ∈ l
  · simp [h]
  · simp [h]

lemma sanitize_safe (text : List Char) :
    (∀ c ∈ MainPy.sanitize_filename text, safeChar c = true) ∧
      (MainPy.sanitize_filename text).length ≤ 100 := by
  constructor
  · intro c hc
    rw [MainPy.sanitize_filename] at hc
    have h1 := List.mem_of_mem_take hc
    have h2 := (List.mem_filter.mp h1).2
    simp only [isWordChar] at h2
    simp only [safeChar]
    exact h2
  · rw [MainPy.sanitize_filename]
    exact List.length_take_le 100 _

/-- **C1** (skip on existing transcript): if the record's transcript
artifact already exists, processing the record performs no side effects
at all — no download, extraction, transcription or file write is
invoked, the filesystem is returned unchanged, and (by
`Pipeline.process_page`) the loop moves to the next record.  (`main.py`
has no chunk-writing step, so in particular no chunk files are
written.) -/
theorem skip_on_existing_transcript (st : Pipeline.Stages) (fs : Pipeline.FS)
    (base : String) (h : Pipeline.transcription_file_path base ∈ fs) :
    Pipeline.process_record st fs base = (fs, []) := by
  rw [Pipeline.process_record, if_pos h]

theorem skip_on_existing_transcript_witness :
    Pipeline.transcription_file_path "x" ∈ (["transcriptions/x.txt"] : Pipeline.FS) ∧
    Pipeline.process_record ⟨.ok, true, true, true⟩ ["transcriptions/x.txt"] "x" =
      (["transcriptions/x.txt"], []) :=
  ⟨by decide, skip_on_existing_transcript _ _ _ (by decide)⟩

/-- **C4** (cleanup invariant): for a record that is not skipped at the
transcript-exists check, the video artifact does not exist when the
record's processing ends, whatever the collaborator oracle did. -/
theorem cleanup_invariant (st : Pipeline.Stages) (fs : Pipeline.FS) (base : String)
    (h : Pipeline.transcription_file_path base ∉ fs) :
    Pipeline.video_filename base ∉ (Pipeline.process_record st fs base).1 := by
  rw [Pipeline.process_record, if_neg h]
  exact not_mem_removeIf _ _

theorem cleanup_invariant_witness :
    Pipeline.transcription_file_path "x" ∉ (["mp4_downloads/x.mp4"] : Pipeline.FS) ∧
    Pipeline.video_filename "x" ∉
      (Pipeline.process_record ⟨.ok, true, true, false⟩ ["mp4_downloads/x.mp4"] "x").1 :=
  ⟨by decide, cleanup_invariant _ _ _ (by decide)⟩

/-- **C8** (download condition): for a record that is not skipped at the
transcript-exists check, the download collaborator is invoked if and
only if neither the audio artifact nor the video artifact exists. -/
theorem download_iff_no_audio_no_video (st : Pipeline.Stages) (fs : Pipeline.FS)
    (base : String) (h : Pipeline.transcription_file_path base ∉ fs) :
    Pipeline.Event.download ∈ (Pipeline.process_record st fs base).2 ↔
      (Pipeline.audio_file_path base ∉ fs ∧ Pipeline.video_filename base ∉ fs) := by
  rw [Pipeline.process_record, if_neg h]
  by_cases hdl : Pipeline.audio_file_path base ∉ fs ∧ Pipeline.video_filename base ∉ fs
  · simp only [if_pos hdl]
    simp [hdl]
  · simp only [if_neg hdl, List.nil_append]
    refine iff_of_false ?_ hdl
    intro hmem
    simp only [List.mem_append, List.mem_cons, List.mem_singleton, List.not_mem_nil,
      mem_ite_singleton_iff, or_false, false_or] at hmem
    rcases hmem with (⟨-, h2⟩ | h2) | ⟨-, h2⟩ <;> exact absurd h2 (by decide)

theorem download_iff_no_audio_no_video_witness :
    Pipeline.transcription_file_path "x" ∉ ([] : Pipeline.FS) ∧
    (Pipeline.Event.download ∈ (Pipeline.process_record ⟨.ok, true, true, true⟩ [] "x").2 ↔
      (Pipeline.audio_file_path "x" ∉ ([] : Pipeline.FS) ∧
       Pipeline.video_filename "x" ∉ ([] : Pipeline.FS))) :=
  ⟨by decide, download_iff_no_audio_no_video _ _ _ (by decide)⟩

/-- **C2** (chunk round-trip): splitting any text on whitespace and
chunking partitions the word sequence — joining all chunks' words in
order reproduces it exactly; and for a text of exactly `500 * k` words,
exactly `k` chunks are produced, each a nonempty string of exactly 500
words. -/
theorem chunk_round_trip (text : List Char) :
    ((chunk_transcript text).map splitWords).flatten = splitWords text ∧
    ∀ k, (splitWords text).length = chunk_size * k →
      (chunk_transcript text).length = k ∧
      ∀ c ∈ chunk_transcript text, c ≠ [] ∧ (splitWords c).length = chunk_size := by
  have hn : 0 < chunk_size := by decide
  have hkey : ∀ g ∈ chunksOf chunk_size (splitWords text).length (splitWords text),
      splitWords (joinWords g) = g := fun g hg =>
    splitWords_joinWords g (fun w hw =>
      splitWords_sound text w
        (chunksOf_subset chunk_size (splitWords text).length (splitWords text) g hg w hw))
  have hct : chunk_transcript text =
      (chunksOf chunk_size (splitWords text).length (splitWords text)).map joinWords := rfl
  constructor
  · rw [hct, List.map_map]
    have hmc :
        (chunksOf chunk_size (splitWords text).length (splitWords text)).map
            (splitWords ∘ joinWords) =
          (chunksOf chunk_size (splitWords text).length (splitWords text)).map id :=
      List.map_congr_left (fun g hg => hkey g hg)
    rw [hmc, List.map_id]
    exact chunksOf_join chunk_size hn _ _ (le_refl _)
  · intro k hk
    constructor
    · rw [hct, List.length_map]
      exact chunksOf_length chunk_size hn _ k _ (le_refl _) hk
    · intro c hc
      rw [hct] at hc
      obtain ⟨g, hg, hgc⟩ := List.mem_map.mp hc
      have hsg : splitWords c = g := hgc ▸ hkey g hg
      have hlg : g.length = chunk_size :=
        chunksOf_mem_length chunk_size hn _ k _ (le_refl _) hk g hg
      refine ⟨?_, by rw [hsg, hlg]⟩
      intro hce
      rw [hce] at hsg
      have : g = [] := hsg.symm
      rw [this] at hlg
      simp [chunk_size] at hlg

theorem chunk_round_trip_witness :
    ((chunk_transcript chunkDemo).map splitWords).flatten = splitWords chunkDemo ∧
    (chunk_transcript chunkDemo).length = 1 ∧
    ∀ c ∈ chunk_transcript chunkDemo, c ≠ [] ∧ (splitWords c).length = chunk_size := by
  have hdemo : splitWords chunkDemo = List.replicate 500 ['a'] :=
    splitWords_joinWords _ (by
      intro w hw
      rw [List.eq_of_mem_replicate hw]
      exact ⟨by decide, by decide⟩)
  have hk : (splitWords chunkDemo).length = chunk_size * 1 := by
    rw [hdemo, List.length_replicate]
    decide
  exact ⟨(chunk_round_trip chunkDemo).1, ((chunk_round_trip chunkDemo).2 1 hk).1,
    ((chunk_round_trip chunkDemo).2 1 hk).2⟩

/-- **C3**, counterexample: the alt text `"a/b"` contains no `"for "`,
so `process_page`'s fallback branch (line 224) applies only the three
basic replacements; the derived identifier keeps `'/'`, a character
outside `[A-Za-z0-9_.-]`.  This refutes the claim that every derived
identifier contains only characters of that class. -/
theorem canonical_id_charset_cex :
    '/' ∈ MainPy.derive_base_filename (String.toList "a/b") ∧ safeChar '/' = false := by
  constructor
  · decide
  · decide

/-- **C3**, amended: for every alt text that does contain `"for "` (so
the `sanitize_filename` path of lines 216–221 applies) and whose
characters are ASCII (Python's `\w` also keeps non-ASCII word
characters), the derived identifier contains only characters in
`[A-Za-z0-9_.-]` and is at most 100 characters long.  The fallback
branch for labels without `"for "` does not enforce the invariant. -/
theorem canonical_id_charset_amended (alt : List Char)
    (_hascii : ∀ c ∈ alt, c.toNat < 128)
    (hfor : hasSub MainPy.forNeedle alt = true) :
    (∀ c ∈ MainPy.derive_base_filename alt, safeChar c = true) ∧
      (MainPy.derive_base_filename alt).length ≤ 100 := by
  rw [MainPy.derive_base_filename, if_pos hfor]
  exact sanitize_safe _

theorem canonical_id_charset_amended_witness :
    (∀ c ∈ String.toList "x for a", c.toNat < 128) ∧
    hasSub MainPy.forNeedle (String.toList "x for a") = true ∧
    ((∀ c ∈ MainPy.derive_base_filename (String.toList "x for a"), safeChar c = true) ∧
      (MainPy.derive_base_filename (String.toList "x for a")).length ≤ 100) :=
  ⟨by decide, by decide, canonical_id_charset_amended _ (by decide) (by decide)⟩

/-- **C6**, counterexample: a download whose stream fails after one of
three chunks were copied leaves a partial file at the destination (the
`except` clause of `download_file` only logs; nothing deletes the
partial write).  This refutes the claim that a mid-stream failure
leaves no file at `media_path`. -/
theorem download_atomicity_cex :
    (Streaming.download_file [10, 20, 30] (some 2) []
        "mp4_downloads/v.mp4").lookup "mp4_downloads/v.mp4" = some [10] ∧
      ([10] : List Nat) ≠ [10, 20, 30] := by
  constructor
  · rfl
  · decide

/-- **C6**, amended: a download that fails before the body copy begins
(request error or non-success status, raised before `open`) leaves the
filesystem unchanged, and a successful download leaves the complete
file; only a mid-stream failure leaves a partial file in place. -/
theorem download_atomicity_amended (stream : List Nat) (fs : Streaming.CFS)
    (filename : String) :
    Streaming.download_file stream (some 0) fs filename = fs ∧
      (Streaming.download_file stream none fs filename).lookup filename = some stream := by
  refine ⟨rfl, ?_⟩
  simp [Streaming.download_file, Streaming.setFile, List.lookup]

/-- **C7** (date conversion): normalizing the label `"November 13, 2025
City Council Regular Meeting at 6:00 PM"` — `convert_to_iso8601_datetime`
followed by `sanitize_filename` — yields exactly
`"2025-11-13T1800_City_Council_Regular_Meeting"` (so in particular the
identifier starts with that string): the month name becomes `11`, 6 PM
becomes `1800`, and the description's spaces become underscores. -/
theorem date_conversion_example :
    MainPy.sanitize_filename (convert_to_iso8601_datetime
        (String.toList "November 13, 2025 City Council Regular Meeting at 6:00 PM")) =
      String.toList "2025-11-13T1800_City_Council_Regular_Meeting" := by
  decide

/-- **C9** (duplicate definitions agree): the `sanitize_filename` of
`main.py` and the textually identical one of `scrape.py` are
extensionally equal. -/
theorem sanitize_filename_copies_equal (text : List Char) (max_length : Nat) :
    MainPy.sanitize_filename text max_length = ScrapePy.sanitize_filename text max_length :=
  rfl

/-- **C10** (no hour validation): on the label `"November 13, 2025
Budget Meeting at 13:00 PM"` the regex accepts hour 13 with marker PM,
`convert_to_iso8601_datetime` adds 12 without a range check, and the
derived identifier contains the non-existent time-of-day field
`T2500`. -/
theorem pm_hour_not_validated :
    MainPy.sanitize_filename (convert_to_iso8601_datetime
        (String.toList "November 13, 2025 Budget Meeting at 13:00 PM")) =
      String.toList "2025-11-13T2500_Budget_Meeting" ∧
    hasSub (String.toList "T2500")
      (MainPy.sanitize_filename (convert_to_iso8601_datetime
        (String.toList "November 13, 2025 Budget Meeting at 13:00 PM"))) = true := by
  constructor
  · decide
  · decide
